import Mathlib

/-!
Verification of the cloudflare-proxy worker (src/src/index.ts, src/unnamed/part_000).

The development shallowly embeds the worker's pipeline:
the cookie rewriting function modifyCookie, the response rebuilding logic of
handleApiRequest (header copy, Set-Cookie rewriting, CORS injection), the
redirect classification of the manual-redirect variant, the backend URL
construction of both variants, and the path router of the fetch entry points.

Modelling conventions:
the JavaScript string primitives used by the code, split on a separator
character, trim, toLowerCase, startsWith and first-occurrence replace,
are re-implemented structurally on the character list underlying a String
(JS toLowerCase and trim are used by the code only on ASCII data, where
Char.toLower and Char.isWhitespace agree with them).
The Fetch Headers object is modelled as an ordered list of key/value pairs
with case-insensitive keys: set removes every entry with a matching key and
appends the new pair, append appends, getAll returns the values of the
matching entries in order.
The only piece of the request URL that modifyCookie consumes is
new URL(requestUrl).hostname, so the embedding passes the hostname itself;
likewise handleApiRequest consumes url.origin and url.pathname/url.search,
which are passed as explicit string arguments.
-/

namespace CloudflareProxy

/-! ## String primitives -/

/-- Lowercasing of a string, character by character (JS String.toLowerCase on
ASCII data). -/
def strLower (s : String) : String := String.mk (s.data.map Char.toLower)

/-- Removal of leading and trailing whitespace from a character list. -/
def trimList (l : List Char) : List Char :=
  ((l.dropWhile Char.isWhitespace).reverse.dropWhile Char.isWhitespace).reverse

/-- JS String.trim (on ASCII whitespace). -/
def strTrim (s : String) : String := String.mk (trimList s.data)

/-- Boolean test that the first list is an initial segment of the second
(the character-level core of JS String.startsWith). -/
def isPre : List Char → List Char → Bool
  | [], _ => true
  | _ :: _, [] => false
  | a :: as, b :: bs => a == b && isPre as bs

/-- JS String.startsWith. -/
def startsWithStr (pre s : String) : Bool := isPre pre.data s.data

/-- Prepending a character to the first segment of a segment list. -/
def consHead (c : Char) : List (List Char) → List (List Char)
  | [] => [[c]]
  | seg :: segs => (c :: seg) :: segs

/-- Splitting a character list at every occurrence of the separator
character; adjacent separators produce empty segments and the result is
never empty (the semantics of JS String.split with a one-character
separator). -/
def splitCharList (sep : Char) : List Char → List (List Char)
  | [] => [[]]
  | c :: rest =>
    if c = sep then [] :: splitCharList sep rest
    else consHead c (splitCharList sep rest)

/-- JS s.split(';'). -/
def splitSemi (s : String) : List String :=
  (splitCharList ';' s.data).map String.mk

/-- JS Array.prototype.join with the given separator. -/
def joinSep (sep : String) : List String → String
  | [] => ""
  | [x] => x
  | x :: y :: xs => x ++ sep ++ joinSep sep (y :: xs)

/-- First-occurrence replacement on character lists (JS String.replace with a
string pattern replaces only the first occurrence). -/
def replaceFirstList (pat rep : List Char) : List Char → List Char
  | [] => if isPre pat [] then rep else []
  | c :: rest =>
    if isPre pat (c :: rest) then rep ++ (c :: rest).drop pat.length
    else c :: replaceFirstList pat rep rest

/-- JS String.replace with a string pattern (first occurrence only). -/
def replaceFirst (pat rep s : String) : String :=
  String.mk (replaceFirstList pat.data rep.data s.data)

/-! ## CookieRewriter (modifyCookie, src/src/index.ts lines 72-123) -/

/-- part.toLowerCase().startsWith('domain='). -/
def isDomainPart (part : String) : Bool := startsWithStr "domain=" (strLower part)

/-- part.toLowerCase().startsWith('samesite='). -/
def isSameSitePart (part : String) : Bool := startsWithStr "samesite=" (strLower part)

/-- part.toLowerCase() === 'secure'. -/
def isSecurePart (part : String) : Bool := strLower part == "secure"

/-- The per-segment rewrite performed by the body of the loop of
modifyCookie: a Domain attribute is replaced by the request hostname, a
SameSite attribute is forced to None, a bare Secure token is kept, anything
else passes through unchanged. -/
def rewriteSeg (hostname part : String) : String :=
  if isDomainPart part then "Domain=" ++ hostname
  else if isSameSitePart part then "SameSite=None"
  else if isSecurePart part then "Secure"
  else part

/-- The loop of modifyCookie over the attribute segments (cookieParts[1..]):
it pushes the rewritten segments in order and records which of the
Domain / SameSite / Secure attributes were seen (the three mutable flags of
the source). -/
def processParts (hostname : String) : List String → List String × (Bool × Bool × Bool)
  | [] => ([], (false, false, false))
  | part :: rest =>
    let r := processParts hostname rest
    if isDomainPart part then
      (("Domain=" ++ hostname) :: r.1, (true, r.2.2.1, r.2.2.2))
    else if isSameSitePart part then
      ("SameSite=None" :: r.1, (r.2.1, true, r.2.2.2))
    else if isSecurePart part then
      ("Secure" :: r.1, (r.2.1, r.2.2.1, true))
    else
      (part :: r.1, r.2)

/-- cookie.split(';').map(part => part.trim()) : the segments of a
Set-Cookie header value. -/
def cookieSegs (s : String) : List String := (splitSemi s).map strTrim

/-- The attribute segments of a Set-Cookie header value: everything after
the first (name=value) segment. -/
def attrSegs (s : String) : List String := (cookieSegs s).tail

/-- modifyCookie of the source, with new URL(requestUrl).hostname passed
directly as the hostname argument.  An empty cookie string (the only falsy
string) is dropped; otherwise the segments are split and trimmed, the
attribute segments are rewritten by the loop, the missing attributes among
Domain=hostname, SameSite=None, Secure are appended in that order, and the
parts are joined with a semicolon and a space. -/
def modifyCookie (cookie hostname : String) : Option String :=
  if cookie = "" then none
  else
    let cookieParts := cookieSegs cookie
    let mainPart := cookieParts.headD ""
    let pr := processParts hostname cookieParts.tail
    let newCookieParts := mainPart :: (pr.1
      ++ (if pr.2.1 then [] else ["Domain=" ++ hostname])
      ++ (if pr.2.2.1 then [] else ["SameSite=None"])
      ++ (if pr.2.2.2 then [] else ["Secure"]))
    some (joinSep "; " newCookieParts)

/-- The list of parts of a rewritten cookie, described structurally: the
main part, then the in-place rewriting of every attribute segment, then the
attributes that were never seen, in the fixed order Domain, SameSite,
Secure. -/
def outParts (cookie hostname : String) : List String :=
  let t := attrSegs cookie
  (cookieSegs cookie).headD "" :: (t.map (rewriteSeg hostname)
    ++ (if t.any isDomainPart then [] else ["Domain=" ++ hostname])
    ++ (if t.any isSameSitePart then [] else ["SameSite=None"])
    ++ (if t.any isSecurePart then [] else ["Secure"]))

/-- The rewrite algorithm as worded by the specification (section 4.4 /
claim C3): drop empty input; split on the semicolon and trim; keep the
first segment; replace every Domain attribute in place by
Domain=hostname, every SameSite attribute in place by SameSite=None, keep
a bare Secure, pass everything else through; append whichever of
Domain=hostname, SameSite=None, Secure was not seen, in that fixed order;
join all segments with a semicolon and a space. -/
def modifyCookieSpec (cookie hostname : String) : Option String :=
  if cookie = "" then none
  else some (joinSep "; " (outParts cookie hostname))

/-- A well-formed request hostname: no semicolon and no whitespace
character.  Every hostname produced by the URL parser for a real request
URL satisfies this (whitespace is a forbidden host code point and a
registrable domain never contains a semicolon). -/
def hostnameOk (hostname : String) : Bool :=
  hostname.data.all (fun c => !(c == ';') && !c.isWhitespace)

/-! ## Attribute counting on a serialized cookie (for the invariant claims) -/

/-- A segment carrying a Domain attribute, in any casing, with or without a
value. -/
def isDomainAttr (seg : String) : Bool := isDomainPart seg || strLower seg == "domain"

/-- A segment carrying a SameSite attribute, in any casing, with or without
a value. -/
def isSameSiteAttr (seg : String) : Bool := isSameSitePart seg || strLower seg == "samesite"

/-- Number of Domain attributes among the attribute segments of a
serialized cookie. -/
def countDomainAttrs (s : String) : Nat := (attrSegs s).countP (fun x => isDomainAttr x)

/-- Number of SameSite attributes among the attribute segments of a
serialized cookie. -/
def countSameSiteAttrs (s : String) : Nat := (attrSegs s).countP (fun x => isSameSiteAttr x)

/-- Number of bare Secure tokens among the attribute segments of a
serialized cookie. -/
def countSecureToks (s : String) : Nat := (attrSegs s).countP (fun x => isSecurePart x)

/-- A segment the rewrite loop recognizes: a Domain attribute with a value,
a SameSite attribute with a value, or a bare Secure token. -/
def isRecognized (x : String) : Bool := isDomainPart x || isSameSitePart x || isSecurePart x

/-! ## Header multimap (Fetch Headers, case-insensitive keys) -/

/-- A header map: an ordered list of key/value pairs; duplicate keys are
kept (needed for repeated Set-Cookie entries). -/
abbrev HeaderMap : Type := List (String × String)

/-- Case-insensitive equality of header keys. -/
def headerKeyEq (a b : String) : Bool := strLower a == strLower b

/-- Headers.set: every entry with a matching key is removed and the new
pair is appended. -/
def hset (hs : HeaderMap) (k v : String) : HeaderMap :=
  hs.filter (fun p => !headerKeyEq p.1 k) ++ [(k, v)]

/-- Headers.append. -/
def happend (hs : HeaderMap) (k v : String) : HeaderMap := hs ++ [(k, v)]

/-- Headers.has. -/
def hhas (hs : HeaderMap) (k : String) : Bool := hs.any (fun p => headerKeyEq p.1 k)

/-- Headers.getAll: the values of the entries with a matching key, in
order. -/
def hgetAll (hs : HeaderMap) (k : String) : List String :=
  (hs.filter (fun p => headerKeyEq p.1 k)).map Prod.snd

/-! ## Requests and responses -/

/-- The redirect mode of a Fetch request. -/
inductive RedirectMode where
  | follow
  | manual
  | error
deriving DecidableEq

/-- The inbound request, reduced to the fields the worker reads. -/
structure InboundRequest where
  method : String
  url : String
  headers : HeaderMap
  body : Option (List Nat)

/-- The request handed to the upstream fetch. -/
structure UpstreamRequest where
  url : String
  method : String
  headers : HeaderMap
  body : Option (List Nat)
  redirect : RedirectMode

/-- The upstream response, as observed by the worker. -/
structure UpstreamResponse where
  status : Nat
  statusText : String
  headers : HeaderMap
  body : List Nat

/-- The response the worker returns. -/
structure OutboundResponse where
  status : Nat
  statusText : String
  headers : HeaderMap
  body : Option (List Nat)

/-- The fixed backend origin of src/src/index.ts. -/
def backendOrigin : String := "https://laclipasa-backend.fly.dev"

/-- Backend URL of the first variant (src/src/index.ts line 24):
origin + url.pathname + url.search.  The search argument is URL.search,
i.e. the empty string when the URL has no query and a question mark
followed by the query otherwise. -/
def buildBackendUrl1 (pathname search : String) : String :=
  backendOrigin ++ pathname ++ search

/-- Backend URL of the manual-redirect variant (src/src/index.ts line 147):
origin + url.pathname.replace('/fly-api', '') + url.search. -/
def buildBackendUrl2 (pathname search : String) : String :=
  backendOrigin ++ replaceFirst "/fly-api" "" pathname ++ search

/-- The modified request built by the manual-redirect variant
(src/src/index.ts lines 151-156): same method, headers and body, backend
URL, redirect mode manual. -/
def buildModifiedRequest (req : InboundRequest) (pathname search : String) : UpstreamRequest :=
  { url := buildBackendUrl2 pathname search
    method := req.method
    headers := req.headers
    body := req.body
    redirect := RedirectMode.manual }

/-! ## ResponseRebuilder (shared by both variants) -/

/-- The header-copy loop: every upstream header whose key is not
Set-Cookie (case-insensitively) is set on the outbound map. -/
def copyNonCookie (dst : HeaderMap) : HeaderMap → HeaderMap
  | [] => dst
  | (k, v) :: rest =>
    copyNonCookie (if strLower k == "set-cookie" then dst else hset dst k v) rest

/-- The cookie loop: each upstream Set-Cookie value is rewritten and, when
the rewrite returns a value, appended as a distinct Set-Cookie entry. -/
def appendCookies (hostname : String) (dst : HeaderMap) : List String → HeaderMap
  | [] => dst
  | c :: rest =>
    appendCookies hostname
      (match modifyCookie c hostname with
       | some m => happend dst "Set-Cookie" m
       | none => dst) rest

/-- The four CORS headers, set last (overwriting any prior value). -/
def setCorsHeaders (hs : HeaderMap) (origin : String) : HeaderMap :=
  hset (hset (hset (hset hs
    "Access-Control-Allow-Origin" origin)
    "Access-Control-Allow-Credentials" "true")
    "Access-Control-Allow-Methods" "GET, POST, PUT, DELETE, OPTIONS")
    "Access-Control-Allow-Headers" "Content-Type, Authorization"

/-- The rebuild path shared by both variants (src/src/index.ts lines 37-66
and 173-202): a fresh response with the upstream status, status text and
buffered body; non-cookie headers copied with set; each Set-Cookie value
rewritten against the request hostname and appended; the CORS headers set
last against the request origin. -/
def rebuildResponse (resp : UpstreamResponse) (hostname origin : String) : OutboundResponse :=
  let h1 := copyNonCookie [] resp.headers
  let h2 := appendCookies hostname h1 (hgetAll resp.headers "Set-Cookie")
  { status := resp.status
    statusText := resp.statusText
    headers := setCorsHeaders h2 origin
    body := some resp.body }

/-! ## ProxyForwarder (manual-redirect variant, src/src/index.ts lines 146-203) -/

/-- The redirect classification: status in [300,400) and a Location header
present. -/
def isRedirect (resp : UpstreamResponse) : Prop :=
  300 ≤ resp.status ∧ resp.status < 400 ∧ hhas resp.headers "Location" = true

instance (resp : UpstreamResponse) : Decidable (isRedirect resp) := by
  unfold isRedirect
  infer_instance

/-- handleApiRequest of the manual-redirect variant, from the point where
the upstream response is in hand: a redirect is passed through with its
status, status text and full header set and no body; any other response
goes through the rebuild path. -/
def handleApiRequest (resp : UpstreamResponse) (hostname origin : String) : OutboundResponse :=
  if isRedirect resp then
    { status := resp.status
      statusText := resp.statusText
      headers := resp.headers
      body := none }
  else rebuildResponse resp hostname origin

/-! ## Router (fetch entry points) -/

/-- The routing decision: either the request is proxied (upstream call with
the given pathname and search) or a fixed fallback response is returned and
no upstream call is made. -/
inductive RouterResult where
  | proxied (pathname search : String)
  | fallback (status : Nat) (body : String)
deriving DecidableEq

/-- The fallback body of src/src/index.ts line 16. -/
def fallbackBody1 : String :=
  "This is a proxy worker. API requests should be sent to /fly-api/..."

/-- The fallback body of src/unnamed/part_000 line 16. -/
def fallbackBody000 : String :=
  "This is a proxy worker. API requests should be sent to /api/..."

/-- The fetch entry point of src/src/index.ts lines 6-18: paths starting
with /fly-api/ are proxied, everything else gets a 200 response with the
fixed body (new Response with no init has status 200). -/
def fetchRouter (pathname search : String) : RouterResult :=
  if startsWithStr "/fly-api/" pathname then RouterResult.proxied pathname search
  else RouterResult.fallback 200 fallbackBody1

/-- The fetch entry point of src/unnamed/part_000 lines 6-18: same shape
with the /api/ prefix. -/
def fetchRouterPart000 (pathname search : String) : RouterResult :=
  if startsWithStr "/api/" pathname then RouterResult.proxied pathname search
  else RouterResult.fallback 200 fallbackBody000

/-! ## Lemmas: dropWhile and trimming -/

theorem stringMk_data (s : String) : String.mk s.data = s := rfl

theorem head?_dropWhile_false {α : Type} {p : α → Bool} :
    ∀ {l : List α} {c : α}, (l.dropWhile p).head? = some c → p c = false := by
  intro l
  induction l with
  | nil => intro c h; simp [List.dropWhile] at h
  | cons a as ih =>
    intro c h
    by_cases hp : p a = true
    · rw [List.dropWhile_cons_of_pos hp] at h
      exact ih h
    · rw [List.dropWhile_cons_of_neg hp] at h
      simp only [List.head?_cons, Option.some.injEq] at h
      subst h
      exact Bool.eq_false_iff.mpr hp

theorem dropWhile_eq_self_of_head {α : Type} {p : α → Bool} {l : List α}
    (h : ∀ c, l.head? = some c → p c = false) : l.dropWhile p = l := by
  cases l with
  | nil => rfl
  | cons a as =>
    have ha := h a rfl
    rw [List.dropWhile_cons_of_neg (by rw [ha]; exact Bool.false_ne_true)]

theorem dropWhile_idem {α : Type} (p : α → Bool) (l : List α) :
    (l.dropWhile p).dropWhile p = l.dropWhile p :=
  dropWhile_eq_self_of_head (fun _ h => head?_dropWhile_false h)

theorem getLast?_dropWhile {α : Type} {p : α → Bool} :
    ∀ {l : List α}, l.dropWhile p ≠ [] → (l.dropWhile p).getLast? = l.getLast? := by
  intro l
  induction l with
  | nil => intro h; simp [List.dropWhile] at h
  | cons a as ih =>
    intro h
    by_cases hp : p a = true
    · rw [List.dropWhile_cons_of_pos hp] at h ⊢
      rw [ih h]
      have has : as ≠ [] := by
        intro hnil
        rw [hnil] at h
        simp [List.dropWhile] at h
      cases as with
      | nil => exact absurd rfl has
      | cons b bs => rw [List.getLast?_cons_cons]
    · rw [List.dropWhile_cons_of_neg hp]

theorem trimList_trimList (l : List Char) : trimList (trimList l) = trimList l := by
  unfold trimList
  by_cases hnil : (l.dropWhile Char.isWhitespace).reverse.dropWhile Char.isWhitespace = []
  · rw [hnil]
    rfl
  · have h1 : ((l.dropWhile Char.isWhitespace).reverse.dropWhile
        Char.isWhitespace).reverse.dropWhile Char.isWhitespace =
        ((l.dropWhile Char.isWhitespace).reverse.dropWhile Char.isWhitespace).reverse := by
      apply dropWhile_eq_self_of_head
      intro c hc
      rw [List.head?_reverse, getLast?_dropWhile hnil, List.getLast?_reverse] at hc
      exact head?_dropWhile_false hc
    rw [h1, List.reverse_reverse, dropWhile_idem]

theorem mem_of_mem_trimList {c : Char} {l : List Char} (h : c ∈ trimList l) : c ∈ l := by
  unfold trimList at h
  rw [List.mem_reverse] at h
  have h1 := (List.dropWhile_sublist _).subset h
  rw [List.mem_reverse] at h1
  exact (List.dropWhile_sublist _).subset h1

theorem trimList_eq_self_of_no_ws {l : List Char} (h : ∀ c ∈ l, c.isWhitespace = false) :
    trimList l = l := by
  unfold trimList
  have h1 : l.dropWhile Char.isWhitespace = l :=
    dropWhile_eq_self_of_head (fun c hc => h c (List.mem_of_mem_head? hc))
  rw [h1]
  have h2 : l.reverse.dropWhile Char.isWhitespace = l.reverse :=
    dropWhile_eq_self_of_head
      (fun c hc => h c (List.mem_reverse.mp (List.mem_of_mem_head? hc)))
  rw [h2, List.reverse_reverse]

theorem trimList_space_cons (l : List Char) : trimList (' ' :: l) = trimList l := by
  unfold trimList
  rw [List.dropWhile_cons_of_pos (by decide)]

theorem strTrim_strTrim (s : String) : strTrim (strTrim s) = strTrim s := by
  unfold strTrim
  rw [show (String.mk (trimList s.data)).data = trimList s.data from rfl, trimList_trimList]

theorem strTrim_eq_self_of_no_ws {s : String} (h : ∀ c ∈ s.data, c.isWhitespace = false) :
    strTrim s = s := by
  unfold strTrim
  rw [trimList_eq_self_of_no_ws h, stringMk_data]

/-! ## Lemmas: splitting and joining -/

theorem consHead_cons (c : Char) (seg : List Char) (segs : List (List Char)) :
    consHead c (seg :: segs) = (c :: seg) :: segs := rfl

theorem splitCharList_cons_sep {sep : Char} (rest : List Char) :
    splitCharList sep (sep :: rest) = [] :: splitCharList sep rest := by
  conv_lhs => rw [splitCharList]
  rw [if_pos rfl]

theorem splitCharList_cons_ne {sep c : Char} (rest : List Char) (hc : ¬ c = sep) :
    splitCharList sep (c :: rest) = consHead c (splitCharList sep rest) := by
  conv_lhs => rw [splitCharList]
  rw [if_neg hc]

theorem splitCharList_ne_nil (sep : Char) : ∀ l : List Char, splitCharList sep l ≠ [] := by
  intro l
  induction l with
  | nil => simp [splitCharList]
  | cons c rest ih =>
    by_cases hc : c = sep
    · subst hc
      rw [splitCharList_cons_sep]
      simp
    · rw [splitCharList_cons_ne rest hc]
      cases splitCharList sep rest with
      | nil => simp [consHead]
      | cons seg segs => simp [consHead]

theorem splitCharList_no_sep (sep : Char) :
    ∀ (l : List Char), ∀ seg ∈ splitCharList sep l, sep ∉ seg := by
  intro l
  induction l with
  | nil =>
    intro seg hseg
    simp [splitCharList] at hseg
    subst hseg
    simp
  | cons c rest ih =>
    intro seg hseg
    by_cases hc : c = sep
    · subst hc
      rw [splitCharList_cons_sep] at hseg
      rcases List.mem_cons.mp hseg with h | h
      · subst h; simp
      · exact ih seg h
    · rw [splitCharList_cons_ne rest hc] at hseg
      cases hsplit : splitCharList sep rest with
      | nil => exact absurd hsplit (splitCharList_ne_nil sep rest)
      | cons s0 ss =>
        rw [hsplit, consHead_cons] at hseg
        rcases List.mem_cons.mp hseg with h | h
        · subst h
          intro hmem
          rcases List.mem_cons.mp hmem with h1 | h1
          · exact hc h1.symm
          · exact ih s0 (by rw [hsplit]; exact List.mem_cons_self s0 ss) h1
        · exact ih seg (by rw [hsplit]; exact List.mem_cons_of_mem s0 h)

theorem splitCharList_of_no_sep {sep : Char} :
    ∀ {l : List Char}, sep ∉ l → splitCharList sep l = [l] := by
  intro l
  induction l with
  | nil => intro _; rfl
  | cons c cs ih =>
    intro h
    have hc : ¬ c = sep := fun hh => h (by rw [← hh]; exact List.mem_cons_self c cs)
    rw [splitCharList_cons_ne cs hc, ih (fun hm => h (List.mem_cons_of_mem c hm)),
      consHead_cons]

theorem splitCharList_append_sep {sep : Char} :
    ∀ {a : List Char}, sep ∉ a →
      ∀ b, splitCharList sep (a ++ sep :: b) = a :: splitCharList sep b := by
  intro a
  induction a with
  | nil => intro _ b; simp [splitCharList_cons_sep]
  | cons c cs ih =>
    intro h b
    have hc : ¬ c = sep := fun hh => h (by rw [← hh]; exact List.mem_cons_self c cs)
    have hcs : sep ∉ cs := fun hm => h (List.mem_cons_of_mem c hm)
    simp only [List.cons_append]
    rw [splitCharList_cons_ne _ hc, ih hcs b, consHead_cons]

theorem joinSep_cons_cons (sep x y : String) (xs : List String) :
    joinSep sep (x :: y :: xs) = x ++ sep ++ joinSep sep (y :: xs) := rfl

theorem cookieSegs_joinSep :
    ∀ (ps : List String) (p : String), (∀ x ∈ p :: ps, ';' ∉ x.data) →
      cookieSegs (joinSep "; " (p :: ps)) = strTrim p :: ps.map strTrim := by
  intro ps
  induction ps with
  | nil =>
    intro p h
    show cookieSegs p = [strTrim p]
    unfold cookieSegs splitSemi
    rw [splitCharList_of_no_sep (h p (List.mem_cons_self p []))]
    rfl
  | cons y ys ih =>
    intro p h
    rw [joinSep_cons_cons]
    unfold cookieSegs splitSemi
    have hdata : (p ++ "; " ++ joinSep "; " (y :: ys)).data
        = p.data ++ ';' :: (' ' :: (joinSep "; " (y :: ys)).data) := by
      rw [String.data_append, String.data_append, List.append_assoc]
      rfl
    rw [hdata, splitCharList_append_sep (h p (List.mem_cons_self p (y :: ys)))]
    have hne := splitCharList_ne_nil ';' (joinSep "; " (y :: ys)).data
    cases hsplit : splitCharList ';' (joinSep "; " (y :: ys)).data with
    | nil => exact absurd hsplit hne
    | cons s0 ss =>
      have hstep : splitCharList ';' (' ' :: (joinSep "; " (y :: ys)).data)
          = (' ' :: s0) :: ss := by
        rw [splitCharList_cons_ne _ (by decide), hsplit, consHead_cons]
      rw [hstep]
      have hih := ih y (fun x hx => h x (List.mem_cons_of_mem p hx))
      unfold cookieSegs splitSemi at hih
      rw [hsplit] at hih
      simp only [List.map_cons] at hih ⊢
      rw [List.cons.injEq] at hih
      rw [stringMk_data]
      have hsp : strTrim (String.mk (' ' :: s0)) = strTrim (String.mk s0) := by
        unfold strTrim
        rw [show (String.mk (' ' :: s0)).data = ' ' :: s0 from rfl,
          show (String.mk s0).data = s0 from rfl, trimList_space_cons]
      rw [hsp, hih.1, hih.2]

/-! ## Lemmas: segment classification -/

theorem isPre_cons_head {a : Char} {as l : List Char} (h : isPre (a :: as) l = true) :
    l.head? = some a := by
  cases l with
  | nil => simp [isPre] at h
  | cons b bs =>
    simp only [isPre, Bool.and_eq_true, beq_iff_eq] at h
    simp [h.1]

theorem notSameSite_of_isDomain {x : String} (h : isDomainPart x = true) :
    isSameSitePart x = false := by
  unfold isDomainPart startsWithStr at h
  unfold isSameSitePart startsWithStr
  rw [show ("domain=" : String).data = 'd' :: "omain=".data from rfl] at h
  have hd := isPre_cons_head h
  rw [show ("samesite=" : String).data = 's' :: "amesite=".data from rfl]
  cases hl : (strLower x).data with
  | nil => rw [hl] at hd; simp at hd
  | cons c cs =>
    rw [hl] at hd
    simp only [List.head?_cons, Option.some.injEq] at hd
    subst hd
    simp [isPre]

theorem notSecure_of_isDomain {x : String} (h : isDomainPart x = true) :
    isSecurePart x = false := by
  by_contra hc
  rw [Bool.not_eq_false] at hc
  unfold isSecurePart at hc
  rw [beq_iff_eq] at hc
  unfold isDomainPart at h
  rw [hc] at h
  exact absurd h (by decide)

theorem notSecure_of_isSameSite {x : String} (h : isSameSitePart x = true) :
    isSecurePart x = false := by
  by_contra hc
  rw [Bool.not_eq_false] at hc
  unfold isSecurePart at hc
  rw [beq_iff_eq] at hc
  unfold isSameSitePart at h
  rw [hc] at h
  exact absurd h (by decide)

theorem processParts_eq (hostname : String) :
    ∀ l : List String, processParts hostname l =
      (l.map (rewriteSeg hostname),
        (l.any isDomainPart, l.any isSameSitePart, l.any isSecurePart)) := by
  intro l
  induction l with
  | nil => rfl
  | cons part rest ih =>
    unfold processParts
    rw [ih]
    by_cases hd : isDomainPart part = true
    · have hs := notSameSite_of_isDomain hd
      have hc := notSecure_of_isDomain hd
      simp [rewriteSeg, hd, hs, hc]
    · by_cases hs : isSameSitePart part = true
      · have hc := notSecure_of_isSameSite hs
        simp [rewriteSeg, hd, hs, hc]
      · by_cases hc : isSecurePart part = true
        · simp [rewriteSeg, hd, hs, hc]
        · simp [rewriteSeg, hd, hs, hc]

theorem modifyCookie_eq_some {cookie : String} (hostname : String) (hc : cookie ≠ "") :
    modifyCookie cookie hostname = some (joinSep "; " (outParts cookie hostname)) := by
  unfold modifyCookie outParts
  rw [if_neg hc]
  simp only [processParts_eq, attrSegs]

/-! ## Lemmas: the rewritten part list -/

theorem map_eq_self_of {α : Type} {f : α → α} :
    ∀ {l : List α}, (∀ x ∈ l, f x = x) → l.map f = l := by
  intro l
  induction l with
  | nil => intro _; rfl
  | cons a as ih =>
    intro h
    simp only [List.map_cons]
    rw [h a (List.mem_cons_self a as), ih (fun x hx => h x (List.mem_cons_of_mem a hx))]

theorem isPre_append_self : ∀ (l t : List Char), isPre l (l ++ t) = true := by
  intro l t
  induction l with
  | nil => rfl
  | cons a as ih => simp [isPre, ih]

theorem strLower_append (a b : String) : strLower (a ++ b) = strLower a ++ strLower b := by
  apply String.ext
  show ((a ++ b).data.map Char.toLower) = (strLower a ++ strLower b).data
  rw [String.data_append, String.data_append, List.map_append]
  rfl

theorem isDomainPart_domain_append (h : String) : isDomainPart ("Domain=" ++ h) = true := by
  unfold isDomainPart startsWithStr
  rw [strLower_append, show strLower "Domain=" = "domain=" from by decide, String.data_append]
  exact isPre_append_self ("domain=" : String).data (strLower h).data

theorem hostnameOk_no_semi {hostname : String} (hok : hostnameOk hostname = true) :
    ';' ∉ hostname.data := by
  intro hmem
  unfold hostnameOk at hok
  rw [List.all_eq_true] at hok
  have hc := hok ';' hmem
  simp at hc

theorem hostnameOk_no_ws {hostname : String} (hok : hostnameOk hostname = true) :
    ∀ c ∈ hostname.data, c.isWhitespace = false := by
  intro c hc
  unfold hostnameOk at hok
  rw [List.all_eq_true] at hok
  have h1 := hok c hc
  simp only [Bool.and_eq_true, Bool.not_eq_true'] at h1
  exact h1.2

theorem domain_append_no_semi {hostname : String} (hok : hostnameOk hostname = true) :
    ';' ∉ ("Domain=" ++ hostname).data := by
  rw [String.data_append]
  intro hmem
  rcases List.mem_append.mp hmem with h1 | h1
  · exact absurd h1 (by decide)
  · exact hostnameOk_no_semi hok h1

theorem domain_append_trim {hostname : String} (hok : hostnameOk hostname = true) :
    strTrim ("Domain=" ++ hostname) = "Domain=" ++ hostname := by
  apply strTrim_eq_self_of_no_ws
  rw [String.data_append]
  intro c hc
  rcases List.mem_append.mp hc with h1 | h1
  · have hall : (("Domain=" : String).data.all fun ch => !ch.isWhitespace) = true := by decide
    rw [List.all_eq_true] at hall
    have h2 := hall c h1
    rwa [Bool.not_eq_true'] at h2
  · exact hostnameOk_no_ws hok c h1

theorem cookieSegs_ne_nil (s : String) : cookieSegs s ≠ [] := by
  unfold cookieSegs splitSemi
  intro h
  rw [List.map_eq_nil_iff, List.map_eq_nil_iff] at h
  exact splitCharList_ne_nil ';' s.data h

theorem cookieSegs_no_semi (s : String) : ∀ x ∈ cookieSegs s, ';' ∉ x.data := by
  intro x hx
  unfold cookieSegs splitSemi at hx
  rw [List.mem_map] at hx
  obtain ⟨y, hy, hxy⟩ := hx
  rw [List.mem_map] at hy
  obtain ⟨seg, hseg, hyseg⟩ := hy
  subst hxy
  subst hyseg
  intro hmem
  have h1 : (';' : Char) ∈ trimList seg := hmem
  exact splitCharList_no_sep ';' s.data seg hseg (mem_of_mem_trimList h1)

theorem cookieSegs_trim_stable (s : String) : ∀ x ∈ cookieSegs s, strTrim x = x := by
  intro x hx
  unfold cookieSegs at hx
  rw [List.mem_map] at hx
  obtain ⟨y, _, hxy⟩ := hx
  subst hxy
  exact strTrim_strTrim y

theorem headD_mem {α : Type} {l : List α} (h : l ≠ []) (d : α) : l.headD d ∈ l := by
  cases l with
  | nil => exact absurd rfl h
  | cons a as => exact List.mem_cons_self a as

theorem mem_outParts {x c hostname : String} (hx : x ∈ outParts c hostname) :
    x ∈ cookieSegs c ∨ (∃ y ∈ attrSegs c, x = rewriteSeg hostname y) ∨
      x = "Domain=" ++ hostname ∨ x = "SameSite=None" ∨ x = "Secure" := by
  unfold outParts at hx
  rcases List.mem_cons.mp hx with h | h
  · exact Or.inl (h ▸ headD_mem (cookieSegs_ne_nil c) "")
  · rcases List.mem_append.mp h with h1 | h1
    · rcases List.mem_append.mp h1 with h2 | h2
      · rcases List.mem_append.mp h2 with h3 | h3
        · rw [List.mem_map] at h3
          obtain ⟨y, hy, hxy⟩ := h3
          exact Or.inr (Or.inl ⟨y, hy, hxy.symm⟩)
        · right; right; left
          by_cases hd : (attrSegs c).any isDomainPart
          · rw [if_pos hd] at h3; simp at h3
          · rw [if_neg hd] at h3; simpa using h3
      · right; right; right; left
        by_cases hd : (attrSegs c).any isSameSitePart
        · rw [if_pos hd] at h2; simp at h2
        · rw [if_neg hd] at h2; simpa using h2
    · right; right; right; right
      by_cases hd : (attrSegs c).any isSecurePart
      · rw [if_pos hd] at h1; simp at h1
      · rw [if_neg hd] at h1; simpa using h1

theorem rewriteSeg_value_cases (hostname y : String) :
    rewriteSeg hostname y = "Domain=" ++ hostname ∨ rewriteSeg hostname y = "SameSite=None" ∨
      rewriteSeg hostname y = "Secure" ∨ (rewriteSeg hostname y = y ∧ isDomainPart y = false ∧
        isSameSitePart y = false ∧ isSecurePart y = false) := by
  unfold rewriteSeg
  by_cases hd : isDomainPart y = true
  · rw [if_pos hd]; exact Or.inl rfl
  · rw [if_neg hd]
    by_cases hs : isSameSitePart y = true
    · rw [if_pos hs]; exact Or.inr (Or.inl rfl)
    · rw [if_neg hs]
      by_cases hc : isSecurePart y = true
      · rw [if_pos hc]; exact Or.inr (Or.inr (Or.inl rfl))
      · rw [if_neg hc]
        exact Or.inr (Or.inr (Or.inr ⟨rfl, Bool.eq_false_iff.mpr hd,
          Bool.eq_false_iff.mpr hs, Bool.eq_false_iff.mpr hc⟩))

theorem outParts_no_semi {c hostname : String} (hok : hostnameOk hostname = true) :
    ∀ x ∈ outParts c hostname, ';' ∉ x.data := by
  intro x hx
  rcases mem_outParts hx with h | ⟨y, hy, hxy⟩ | h | h | h
  · exact cookieSegs_no_semi c x h
  · subst hxy
    rcases rewriteSeg_value_cases hostname y with h1 | h1 | h1 | ⟨h1, -, -, -⟩ <;> rw [h1]
    · exact domain_append_no_semi hok
    · decide
    · decide
    · exact cookieSegs_no_semi c y (List.mem_of_mem_tail hy)
  · subst h; exact domain_append_no_semi hok
  · subst h; decide
  · subst h; decide

theorem outParts_trim_stable {c hostname : String} (hok : hostnameOk hostname = true) :
    ∀ x ∈ outParts c hostname, strTrim x = x := by
  intro x hx
  rcases mem_outParts hx with h | ⟨y, hy, hxy⟩ | h | h | h
  · exact cookieSegs_trim_stable c x h
  · subst hxy
    rcases rewriteSeg_value_cases hostname y with h1 | h1 | h1 | ⟨h1, -, -, -⟩ <;> rw [h1]
    · exact domain_append_trim hok
    · decide
    · decide
    · exact cookieSegs_trim_stable c y (List.mem_of_mem_tail hy)
  · subst h; exact domain_append_trim hok
  · subst h; decide
  · subst h; decide

theorem bool_ne_true {b : Bool} (h : b = false) : ¬ b = true := by
  rw [h]
  exact Bool.false_ne_true

theorem notDomain_of_isSameSite {x : String} (h : isSameSitePart x = true) :
    isDomainPart x = false := by
  by_contra hc
  rw [Bool.not_eq_false] at hc
  rw [notSameSite_of_isDomain hc] at h
  exact Bool.false_ne_true h

theorem notDomain_of_isSecure {x : String} (h : isSecurePart x = true) :
    isDomainPart x = false := by
  by_contra hc
  rw [Bool.not_eq_false] at hc
  rw [notSecure_of_isDomain hc] at h
  exact Bool.false_ne_true h

theorem notSameSite_of_isSecure {x : String} (h : isSecurePart x = true) :
    isSameSitePart x = false := by
  by_contra hc
  rw [Bool.not_eq_false] at hc
  rw [notSecure_of_isSameSite hc] at h
  exact Bool.false_ne_true h

theorem rewriteSeg_of_domain {hostname y : String} (h : isDomainPart y = true) :
    rewriteSeg hostname y = "Domain=" ++ hostname := by
  unfold rewriteSeg
  rw [if_pos h]

theorem rewriteSeg_of_sameSite {hostname y : String} (h : isSameSitePart y = true) :
    rewriteSeg hostname y = "SameSite=None" := by
  unfold rewriteSeg
  rw [if_neg (bool_ne_true (notDomain_of_isSameSite h)), if_pos h]

theorem rewriteSeg_of_secure {hostname y : String} (h : isSecurePart y = true) :
    rewriteSeg hostname y = "Secure" := by
  unfold rewriteSeg
  rw [if_neg (bool_ne_true (notDomain_of_isSecure h)),
    if_neg (bool_ne_true (notSameSite_of_isSecure h)), if_pos h]

theorem rewriteSeg_of_other {hostname y : String} (hd : isDomainPart y = false)
    (hs : isSameSitePart y = false) (hc : isSecurePart y = false) :
    rewriteSeg hostname y = y := by
  unfold rewriteSeg
  rw [if_neg (bool_ne_true hd), if_neg (bool_ne_true hs), if_neg (bool_ne_true hc)]

theorem rewriteSeg_fix_domain (hostname : String) :
    rewriteSeg hostname ("Domain=" ++ hostname) = "Domain=" ++ hostname :=
  rewriteSeg_of_domain (isDomainPart_domain_append hostname)

theorem rewriteSeg_fix_sameSiteNone (hostname : String) :
    rewriteSeg hostname "SameSite=None" = "SameSite=None" :=
  rewriteSeg_of_sameSite (by decide)

theorem rewriteSeg_fix_secure (hostname : String) :
    rewriteSeg hostname "Secure" = "Secure" :=
  rewriteSeg_of_secure (by decide)

theorem mem_outParts_tail {x c hostname : String} (hx : x ∈ (outParts c hostname).tail) :
    (∃ y ∈ attrSegs c, x = rewriteSeg hostname y) ∨
      x = "Domain=" ++ hostname ∨ x = "SameSite=None" ∨ x = "Secure" := by
  unfold outParts at hx
  simp only [List.tail_cons] at hx
  rcases List.mem_append.mp hx with h1 | h1
  · rcases List.mem_append.mp h1 with h2 | h2
    · rcases List.mem_append.mp h2 with h3 | h3
      · rw [List.mem_map] at h3
        obtain ⟨y, hy, hxy⟩ := h3
        exact Or.inl ⟨y, hy, hxy.symm⟩
      · right; left
        by_cases hd : (attrSegs c).any isDomainPart = true
        · rw [if_pos hd] at h3; simp at h3
        · rw [if_neg hd] at h3; simpa using h3
    · right; right; left
      by_cases hd : (attrSegs c).any isSameSitePart = true
      · rw [if_pos hd] at h2; simp at h2
      · rw [if_neg hd] at h2; simpa using h2
  · right; right; right
    by_cases hd : (attrSegs c).any isSecurePart = true
    · rw [if_pos hd] at h1; simp at h1
    · rw [if_neg hd] at h1; simpa using h1

theorem outParts_tail_fixed {c hostname : String} :
    ∀ x ∈ (outParts c hostname).tail, rewriteSeg hostname x = x := by
  intro x hx
  rcases mem_outParts_tail hx with ⟨y, _, hxy⟩ | h | h | h
  · subst hxy
    rcases rewriteSeg_value_cases hostname y with h1 | h1 | h1 | ⟨h1, -, -, -⟩ <;> rw [h1]
    · exact rewriteSeg_fix_domain hostname
    · exact rewriteSeg_fix_sameSiteNone hostname
    · exact rewriteSeg_fix_secure hostname
    · exact h1
  · subst h; exact rewriteSeg_fix_domain hostname
  · subst h; exact rewriteSeg_fix_sameSiteNone hostname
  · subst h; exact rewriteSeg_fix_secure hostname

theorem outParts_tail_any_domain (c hostname : String) :
    (outParts c hostname).tail.any isDomainPart = true := by
  unfold outParts
  simp only [List.tail_cons]
  rw [List.any_eq_true]
  by_cases hd : (attrSegs c).any isDomainPart = true
  · rw [List.any_eq_true] at hd
    obtain ⟨y, hy, hpy⟩ := hd
    refine ⟨rewriteSeg hostname y, ?_, ?_⟩
    · simp only [List.mem_append]
      left; left; left
      exact List.mem_map_of_mem _ hy
    · rw [rewriteSeg_of_domain hpy]
      exact isDomainPart_domain_append hostname
  · refine ⟨"Domain=" ++ hostname, ?_, isDomainPart_domain_append hostname⟩
    simp only [List.mem_append]
    left; left; right
    rw [if_neg hd]
    exact List.mem_singleton.mpr rfl

theorem outParts_tail_any_sameSite (c hostname : String) :
    (outParts c hostname).tail.any isSameSitePart = true := by
  unfold outParts
  simp only [List.tail_cons]
  rw [List.any_eq_true]
  by_cases hd : (attrSegs c).any isSameSitePart = true
  · rw [List.any_eq_true] at hd
    obtain ⟨y, hy, hpy⟩ := hd
    refine ⟨rewriteSeg hostname y, ?_, ?_⟩
    · simp only [List.mem_append]
      left; left; left
      exact List.mem_map_of_mem _ hy
    · rw [rewriteSeg_of_sameSite hpy]
      decide
  · refine ⟨"SameSite=None", ?_, by decide⟩
    simp only [List.mem_append]
    left; right
    rw [if_neg hd]
    exact List.mem_singleton.mpr rfl

theorem outParts_tail_any_secure (c hostname : String) :
    (outParts c hostname).tail.any isSecurePart = true := by
  unfold outParts
  simp only [List.tail_cons]
  rw [List.any_eq_true]
  by_cases hd : (attrSegs c).any isSecurePart = true
  · rw [List.any_eq_true] at hd
    obtain ⟨y, hy, hpy⟩ := hd
    refine ⟨rewriteSeg hostname y, ?_, ?_⟩
    · simp only [List.mem_append]
      left; left; left
      exact List.mem_map_of_mem _ hy
    · rw [rewriteSeg_of_secure hpy]
      decide
  · refine ⟨"Secure", ?_, by decide⟩
    simp only [List.mem_append]
    right
    rw [if_neg hd]
    exact List.mem_singleton.mpr rfl

theorem outParts_expand (c hostname : String) :
    outParts c hostname = (cookieSegs c).headD "" :: ((attrSegs c).map (rewriteSeg hostname)
      ++ (if (attrSegs c).any isDomainPart then [] else ["Domain=" ++ hostname])
      ++ (if (attrSegs c).any isSameSitePart then [] else ["SameSite=None"])
      ++ (if (attrSegs c).any isSecurePart then [] else ["Secure"])) := rfl

theorem cons_headD_tail {α : Type} {l : List α} (h : l ≠ []) (d : α) :
    l.headD d :: l.tail = l := by
  cases l with
  | nil => exact absurd rfl h
  | cons a as => rfl

theorem outParts_ne_nil (c hostname : String) : outParts c hostname ≠ [] := by
  rw [outParts_expand]
  exact List.cons_ne_nil _ _

theorem cookieSegs_outParts {c hostname : String} (hok : hostnameOk hostname = true) :
    cookieSegs (joinSep "; " (outParts c hostname)) = outParts c hostname := by
  obtain ⟨p0, t2, hcons⟩ : ∃ p0 t2, outParts c hostname = p0 :: t2 := ⟨_, _, outParts_expand c hostname⟩
  rw [hcons]
  rw [cookieSegs_joinSep t2 p0 (by rw [← hcons]; exact fun x hx => outParts_no_semi hok x hx)]
  rw [outParts_trim_stable hok p0 (by rw [hcons]; exact List.mem_cons_self p0 t2)]
  rw [map_eq_self_of
    (fun x hx => outParts_trim_stable hok x (by rw [hcons]; exact List.mem_cons_of_mem p0 hx))]

theorem joinSep_outParts_ne_empty (c hostname : String) :
    joinSep "; " (outParts c hostname) ≠ "" := by
  obtain ⟨p0, t2, hcons⟩ : ∃ p0 t2, outParts c hostname = p0 :: t2 := ⟨_, _, outParts_expand c hostname⟩
  have htne : t2 ≠ [] := by
    intro hnil
    have hany := outParts_tail_any_secure c hostname
    rw [hcons, hnil] at hany
    simp at hany
  rw [hcons]
  cases t2 with
  | nil => exact absurd rfl htne
  | cons z zs =>
    rw [joinSep_cons_cons]
    intro he
    have hd := congrArg String.data he
    rw [String.data_append, String.data_append] at hd
    simp at hd

theorem modifyCookie_idem {c hostname s : String} (hok : hostnameOk hostname = true)
    (h : modifyCookie c hostname = some s) : modifyCookie s hostname = some s := by
  have hc : c ≠ "" := by
    intro he
    rw [he] at h
    simp [modifyCookie] at h
  rw [modifyCookie_eq_some hostname hc, Option.some.injEq] at h
  subst h
  rw [modifyCookie_eq_some hostname (joinSep_outParts_ne_empty c hostname), Option.some.injEq]
  apply congrArg
  have hseg := cookieSegs_outParts (c := c) hok
  rw [outParts_expand (joinSep "; " (outParts c hostname)) hostname]
  have hattr : attrSegs (joinSep "; " (outParts c hostname)) = (outParts c hostname).tail := by
    unfold attrSegs
    rw [hseg]
  rw [hattr, hseg]
  rw [map_eq_self_of (fun x hx => outParts_tail_fixed x hx)]
  rw [if_pos (outParts_tail_any_domain c hostname),
    if_pos (outParts_tail_any_sameSite c hostname),
    if_pos (outParts_tail_any_secure c hostname)]
  simp only [List.append_nil]
  exact cons_headD_tail (outParts_ne_nil c hostname) ""

/-! ## Lemmas: attribute counting -/

theorem countP_congr_own {α : Type} {p q : α → Bool} :
    ∀ {l : List α}, (∀ x ∈ l, p x = q x) → l.countP p = l.countP q := by
  intro l
  induction l with
  | nil => intro _; rfl
  | cons a as ih =>
    intro h
    rw [List.countP_cons, List.countP_cons, h a (List.mem_cons_self a as),
      ih (fun x hx => h x (List.mem_cons_of_mem a hx))]

theorem countP_or_disjoint {α : Type} (p q : α → Bool) :
    ∀ l : List α, (∀ x ∈ l, ¬(p x = true ∧ q x = true)) →
      l.countP (fun x => p x || q x) = l.countP p + l.countP q := by
  intro l
  induction l with
  | nil => intro _; rfl
  | cons a as ih =>
    intro h
    rw [List.countP_cons, List.countP_cons, List.countP_cons,
      ih (fun x hx => h x (List.mem_cons_of_mem a hx))]
    by_cases hp : p a = true
    · have hq : ¬ q a = true := fun hqa => h a (List.mem_cons_self a as) ⟨hp, hqa⟩
      simp [hp, hq]
      omega
    · by_cases hq : q a = true
      · simp [hp, hq]
        omega
      · simp [hp, hq]

theorem any_eq_countP_pos {α : Type} (p : α → Bool) (l : List α) :
    l.any p = true ↔ 0 < l.countP p := by
  rw [List.any_eq_true, List.countP_pos_iff]

theorem append_ne_head {a b t : String} {ca ct : Char} {as ts : List Char}
    (ha : a.data = ca :: as) (ht : t.data = ct :: ts) (hne : ¬ ca = ct) :
    ((a ++ b) == t) = false := by
  rw [beq_eq_false_iff_ne]
  intro he
  have hd := congrArg String.data he
  rw [String.data_append, ha, ht, List.cons_append, List.cons.injEq] at hd
  exact hne hd.1

theorem isPre_append_false {p a b : String} {cp ca : Char} {ps as : List Char}
    (hp : p.data = cp :: ps) (ha : a.data = ca :: as) (hne : ¬ cp = ca) :
    isPre p.data (a ++ b).data = false := by
  rw [String.data_append, hp, ha, List.cons_append]
  have hc : (cp == ca) = false := beq_eq_false_iff_ne.mpr hne
  simp [isPre, hc]

theorem isSameSitePart_domain_append (h : String) :
    isSameSitePart ("Domain=" ++ h) = false := by
  unfold isSameSitePart startsWithStr
  rw [strLower_append, show strLower "Domain=" = "domain=" from by decide]
  exact isPre_append_false (show ("samesite=" : String).data = 's' :: "amesite=".data from rfl)
    (show ("domain=" : String).data = 'd' :: "omain=".data from rfl) (by decide)

theorem isSecurePart_domain_append (h : String) :
    isSecurePart ("Domain=" ++ h) = false := by
  unfold isSecurePart
  rw [strLower_append, show strLower "Domain=" = "domain=" from by decide]
  exact append_ne_head (show ("domain=" : String).data = 'd' :: "omain=".data from rfl)
    (show ("secure" : String).data = 's' :: "ecure".data from rfl) (by decide)

theorem bareDomain_domain_append (h : String) :
    (strLower ("Domain=" ++ h) == "domain") = false := by
  rw [strLower_append, show strLower "Domain=" = "domain=" from by decide,
    beq_eq_false_iff_ne]
  intro he
  have hd := congrArg (fun s : String => s.data.length) he
  have h7 : (("domain=" : String).data).length = 7 := by decide
  have h6 : (("domain" : String).data).length = 6 := by decide
  simp only [String.data_append, List.length_append, h7, h6] at hd
  omega

theorem bareSameSite_domain_append (h : String) :
    (strLower ("Domain=" ++ h) == "samesite") = false := by
  rw [strLower_append, show strLower "Domain=" = "domain=" from by decide]
  exact append_ne_head (show ("domain=" : String).data = 'd' :: "omain=".data from rfl)
    (show ("samesite" : String).data = 's' :: "amesite".data from rfl) (by decide)

theorem isDomainAttr_domain_append (h : String) :
    isDomainAttr ("Domain=" ++ h) = true := by
  unfold isDomainAttr
  rw [isDomainPart_domain_append, Bool.true_or]

theorem isDomainAttr_rewriteSeg (hostname x : String) :
    isDomainAttr (rewriteSeg hostname x) = (isDomainPart x || (strLower x == "domain")) := by
  by_cases hd : isDomainPart x = true
  · rw [rewriteSeg_of_domain hd, hd, isDomainAttr_domain_append, Bool.true_or]
  · by_cases hs : isSameSitePart x = true
    · rw [rewriteSeg_of_sameSite hs, Bool.eq_false_iff.mpr hd]
      have hb : (strLower x == "domain") = false := by
        rw [beq_eq_false_iff_ne]
        intro he
        unfold isSameSitePart startsWithStr at hs
        rw [he] at hs
        exact absurd hs (by decide)
      rw [hb]
      decide
    · by_cases hc : isSecurePart x = true
      · rw [rewriteSeg_of_secure hc, Bool.eq_false_iff.mpr hd]
        have hb : (strLower x == "domain") = false := by
          unfold isSecurePart at hc
          rw [beq_iff_eq] at hc
          rw [hc]
          decide
        rw [hb]
        decide
      · rw [rewriteSeg_of_other (Bool.eq_false_iff.mpr hd) (Bool.eq_false_iff.mpr hs)
          (Bool.eq_false_iff.mpr hc)]
        rfl

theorem isSameSiteAttr_rewriteSeg (hostname x : String) :
    isSameSiteAttr (rewriteSeg hostname x) = (isSameSitePart x || (strLower x == "samesite")) := by
  by_cases hd : isDomainPart x = true
  · rw [rewriteSeg_of_domain hd, notSameSite_of_isDomain hd]
    have hb : (strLower x == "samesite") = false := by
      rw [beq_eq_false_iff_ne]
      intro he
      unfold isDomainPart startsWithStr at hd
      rw [he] at hd
      exact absurd hd (by decide)
    rw [hb]
    unfold isSameSiteAttr
    rw [isSameSitePart_domain_append, bareSameSite_domain_append]
  · by_cases hs : isSameSitePart x = true
    · rw [rewriteSeg_of_sameSite hs, hs, Bool.true_or]
      decide
    · by_cases hc : isSecurePart x = true
      · rw [rewriteSeg_of_secure hc, Bool.eq_false_iff.mpr hs]
        have hb : (strLower x == "samesite") = false := by
          unfold isSecurePart at hc
          rw [beq_iff_eq] at hc
          rw [hc]
          decide
        rw [hb]
        decide
      · rw [rewriteSeg_of_other (Bool.eq_false_iff.mpr hd) (Bool.eq_false_iff.mpr hs)
          (Bool.eq_false_iff.mpr hc)]
        rfl

theorem isSecurePart_rewriteSeg (hostname x : String) :
    isSecurePart (rewriteSeg hostname x) = isSecurePart x := by
  by_cases hd : isDomainPart x = true
  · rw [rewriteSeg_of_domain hd, notSecure_of_isDomain hd, isSecurePart_domain_append]
  · by_cases hs : isSameSitePart x = true
    · rw [rewriteSeg_of_sameSite hs, notSecure_of_isSameSite hs]
      decide
    · by_cases hc : isSecurePart x = true
      · rw [rewriteSeg_of_secure hc, hc]
        decide
      · rw [rewriteSeg_of_other (Bool.eq_false_iff.mpr hd) (Bool.eq_false_iff.mpr hs)
          (Bool.eq_false_iff.mpr hc)]

theorem outParts_tail_countDomain (c hostname : String) :
    (outParts c hostname).tail.countP (fun x => isDomainAttr x)
      = max 1 ((attrSegs c).countP (fun x => isDomainPart x))
        + (attrSegs c).countP (fun x => strLower x == "domain") := by
  unfold outParts
  simp only [List.tail_cons]
  rw [List.countP_append, List.countP_append, List.countP_append, List.countP_map]
  have hcomp : (attrSegs c).countP ((fun x => isDomainAttr x) ∘ rewriteSeg hostname)
      = (attrSegs c).countP (fun x => isDomainPart x || (strLower x == "domain")) :=
    countP_congr_own (fun x _ => isDomainAttr_rewriteSeg hostname x)
  rw [hcomp, countP_or_disjoint (fun x => isDomainPart x) (fun x => strLower x == "domain")
    (attrSegs c) (fun x _ hboth => by
    obtain ⟨hp, hb⟩ := hboth
    rw [beq_iff_eq] at hb
    simp only [isDomainPart, startsWithStr, hb] at hp
    exact absurd hp (by decide))]
  have hS : (if (attrSegs c).any isSameSitePart then ([] : List String)
      else ["SameSite=None"]).countP (fun x => isDomainAttr x) = 0 := by
    by_cases hs : (attrSegs c).any isSameSitePart = true
    · rw [if_pos hs]; rfl
    · rw [if_neg hs]; decide
  have hC : (if (attrSegs c).any isSecurePart then ([] : List String)
      else ["Secure"]).countP (fun x => isDomainAttr x) = 0 := by
    by_cases hs : (attrSegs c).any isSecurePart = true
    · rw [if_pos hs]; rfl
    · rw [if_neg hs]; decide
  rw [hS, hC]
  by_cases hd : (attrSegs c).any isDomainPart = true
  · rw [if_pos hd]
    have hpos := (any_eq_countP_pos (fun x => isDomainPart x) (attrSegs c)).mp hd
    simp only [List.countP_nil]
    omega
  · rw [if_neg hd]
    have hzero : (attrSegs c).countP (fun x => isDomainPart x) = 0 := by
      by_contra hnz
      exact hd ((any_eq_countP_pos (fun x => isDomainPart x) (attrSegs c)).mpr (Nat.pos_of_ne_zero hnz))
    have h1 : (["Domain=" ++ hostname] : List String).countP (fun x => isDomainAttr x) = 1 := by
      rw [List.countP_cons]
      simp [isDomainAttr_domain_append hostname]
    rw [h1, hzero]
    omega

theorem outParts_tail_countSameSite (c hostname : String) :
    (outParts c hostname).tail.countP (fun x => isSameSiteAttr x)
      = max 1 ((attrSegs c).countP (fun x => isSameSitePart x))
        + (attrSegs c).countP (fun x => strLower x == "samesite") := by
  unfold outParts
  simp only [List.tail_cons]
  rw [List.countP_append, List.countP_append, List.countP_append, List.countP_map]
  have hcomp : (attrSegs c).countP ((fun x => isSameSiteAttr x) ∘ rewriteSeg hostname)
      = (attrSegs c).countP (fun x => isSameSitePart x || (strLower x == "samesite")) :=
    countP_congr_own (fun x _ => isSameSiteAttr_rewriteSeg hostname x)
  rw [hcomp, countP_or_disjoint (fun x => isSameSitePart x) (fun x => strLower x == "samesite")
    (attrSegs c) (fun x _ hboth => by
    obtain ⟨hp, hb⟩ := hboth
    rw [beq_iff_eq] at hb
    simp only [isSameSitePart, startsWithStr, hb] at hp
    exact absurd hp (by decide))]
  have hD : (if (attrSegs c).any isDomainPart then ([] : List String)
      else ["Domain=" ++ hostname]).countP (fun x => isSameSiteAttr x) = 0 := by
    by_cases hs : (attrSegs c).any isDomainPart = true
    · rw [if_pos hs]; rfl
    · rw [if_neg hs]
      rw [List.countP_cons]
      simp [isSameSiteAttr, isSameSitePart_domain_append, bareSameSite_domain_append]
  have hC : (if (attrSegs c).any isSecurePart then ([] : List String)
      else ["Secure"]).countP (fun x => isSameSiteAttr x) = 0 := by
    by_cases hs : (attrSegs c).any isSecurePart = true
    · rw [if_pos hs]; rfl
    · rw [if_neg hs]; decide
  rw [hD, hC]
  by_cases hd : (attrSegs c).any isSameSitePart = true
  · rw [if_pos hd]
    have hpos := (any_eq_countP_pos (fun x => isSameSitePart x) (attrSegs c)).mp hd
    simp only [List.countP_nil]
    omega
  · rw [if_neg hd]
    have hzero : (attrSegs c).countP (fun x => isSameSitePart x) = 0 := by
      by_contra hnz
      exact hd ((any_eq_countP_pos (fun x => isSameSitePart x) (attrSegs c)).mpr (Nat.pos_of_ne_zero hnz))
    have h1 : (["SameSite=None"] : List String).countP (fun x => isSameSiteAttr x) = 1 := by
      decide
    rw [h1, hzero]
    omega

theorem outParts_tail_countSecure (c hostname : String) :
    (outParts c hostname).tail.countP (fun x => isSecurePart x)
      = max 1 ((attrSegs c).countP (fun x => isSecurePart x)) := by
  unfold outParts
  simp only [List.tail_cons]
  rw [List.countP_append, List.countP_append, List.countP_append, List.countP_map]
  have hcomp : (attrSegs c).countP ((fun x => isSecurePart x) ∘ rewriteSeg hostname)
      = (attrSegs c).countP (fun x => isSecurePart x) :=
    countP_congr_own (fun x _ => isSecurePart_rewriteSeg hostname x)
  rw [hcomp]
  have hD : (if (attrSegs c).any isDomainPart then ([] : List String)
      else ["Domain=" ++ hostname]).countP (fun x => isSecurePart x) = 0 := by
    by_cases hs : (attrSegs c).any isDomainPart = true
    · rw [if_pos hs]; rfl
    · rw [if_neg hs]
      rw [List.countP_cons]
      simp [isSecurePart_domain_append]
  have hS : (if (attrSegs c).any isSameSitePart then ([] : List String)
      else ["SameSite=None"]).countP (fun x => isSecurePart x) = 0 := by
    by_cases hs : (attrSegs c).any isSameSitePart = true
    · rw [if_pos hs]; rfl
    · rw [if_neg hs]; decide
  rw [hD, hS]
  by_cases hd : (attrSegs c).any isSecurePart = true
  · rw [if_pos hd]
    have hpos := (any_eq_countP_pos (fun x => isSecurePart x) (attrSegs c)).mp hd
    simp only [List.countP_nil]
    omega
  · rw [if_neg hd]
    have hzero : (attrSegs c).countP (fun x => isSecurePart x) = 0 := by
      by_contra hnz
      exact hd ((any_eq_countP_pos (fun x => isSecurePart x) (attrSegs c)).mpr (Nat.pos_of_ne_zero hnz))
    have h1 : (["Secure"] : List String).countP (fun x => isSecurePart x) = 1 := by
      decide
    rw [h1, hzero]
    omega

theorem outParts_tail_domain_val {c hostname : String} :
    ∀ x ∈ (outParts c hostname).tail, isDomainPart x = true → x = "Domain=" ++ hostname := by
  intro x hx hdx
  rcases mem_outParts_tail hx with ⟨y, _, hxy⟩ | h | h | h
  · subst hxy
    rcases rewriteSeg_value_cases hostname y with h1 | h1 | h1 | ⟨h1, h2, -, -⟩
    · exact h1
    · rw [h1] at hdx; exact absurd hdx (by decide)
    · rw [h1] at hdx; exact absurd hdx (by decide)
    · rw [h1] at hdx; exact absurd hdx (bool_ne_true h2)
  · exact h
  · subst h; exact absurd hdx (by decide)
  · subst h; exact absurd hdx (by decide)

theorem outParts_tail_sameSite_val {c hostname : String} :
    ∀ x ∈ (outParts c hostname).tail, isSameSitePart x = true → x = "SameSite=None" := by
  intro x hx hdx
  rcases mem_outParts_tail hx with ⟨y, _, hxy⟩ | h | h | h
  · subst hxy
    rcases rewriteSeg_value_cases hostname y with h1 | h1 | h1 | ⟨h1, -, h3, -⟩
    · rw [h1] at hdx
      rw [isSameSitePart_domain_append] at hdx
      exact absurd hdx Bool.false_ne_true
    · exact h1
    · rw [h1] at hdx; exact absurd hdx (by decide)
    · rw [h1] at hdx; exact absurd hdx (bool_ne_true h3)
  · subst h
    rw [isSameSitePart_domain_append] at hdx
    exact absurd hdx Bool.false_ne_true
  · exact h
  · subst h; exact absurd hdx (by decide)

/-! ## Lemmas: header maps -/

theorem headerKeyEq_refl (k : String) : headerKeyEq k k = true := by
  unfold headerKeyEq
  exact beq_self_eq_true _

theorem hgetAll_hset_self (hs : HeaderMap) (k v : String) :
    hgetAll (hset hs k v) k = [v] := by
  unfold hgetAll hset
  rw [List.filter_append]
  have h1 : (hs.filter (fun p => !headerKeyEq p.1 k)).filter (fun p => headerKeyEq p.1 k) = [] := by
    rw [List.filter_filter]
    exact List.filter_eq_nil_iff.mpr (fun a _ => by simp [Bool.and_not_self])
  rw [h1]
  simp [List.filter_cons, headerKeyEq_refl]

theorem hgetAll_hset_ne (hs : HeaderMap) {k k1 : String} (v : String)
    (hne : (strLower k == strLower k1) = false) :
    hgetAll (hset hs k v) k1 = hgetAll hs k1 := by
  unfold hgetAll hset
  rw [List.filter_append]
  have h2 : List.filter (fun p => headerKeyEq p.1 k1) [(k, v)] = [] := by
    simp only [List.filter_cons]
    rw [if_neg (by unfold headerKeyEq; rw [hne]; exact Bool.false_ne_true)]
    rfl
  rw [h2, List.append_nil, List.filter_filter]
  apply congrArg
  apply List.filter_congr
  intro a _
  by_cases ha : headerKeyEq a.1 k1 = true
  · rw [ha]
    have hak : headerKeyEq a.1 k = false := by
      unfold headerKeyEq at ha ⊢
      rw [beq_iff_eq] at ha
      rw [ha]
      rw [BEq.comm] at hne
      exact hne
    rw [hak]
    rfl
  · rw [Bool.eq_false_iff.mpr ha]
    simp

theorem hgetAll_happend_self (hs : HeaderMap) (k v : String) :
    hgetAll (happend hs k v) k = hgetAll hs k ++ [v] := by
  unfold hgetAll happend
  rw [List.filter_append, List.map_append]
  simp [List.filter_cons, headerKeyEq_refl]

theorem hhas_insert_other (hs1 hs2 : HeaderMap) (kv : String × String) (k : String)
    (hk : headerKeyEq kv.1 k = false) :
    hhas (hs1 ++ kv :: hs2) k = hhas (hs1 ++ hs2) k := by
  unfold hhas
  simp [List.any_append, List.any_cons, hk]

theorem hgetAll_insert_setCookie (hs1 hs2 : HeaderMap) (v : String) :
    hgetAll (hs1 ++ ("Set-Cookie", v) :: hs2) "Set-Cookie"
      = hgetAll hs1 "Set-Cookie" ++ v :: hgetAll hs2 "Set-Cookie" := by
  unfold hgetAll
  rw [List.filter_append, List.filter_cons, List.map_append]
  rw [if_pos (headerKeyEq_refl "Set-Cookie")]
  rfl

theorem hgetAll_append (hs1 hs2 : HeaderMap) (k : String) :
    hgetAll (hs1 ++ hs2) k = hgetAll hs1 k ++ hgetAll hs2 k := by
  unfold hgetAll
  rw [List.filter_append, List.map_append]

/-! ## Lemmas: the rebuild pipeline -/

theorem copyNonCookie_append :
    ∀ (l1 l2 : List (String × String)) (dst : HeaderMap),
      copyNonCookie dst (l1 ++ l2) = copyNonCookie (copyNonCookie dst l1) l2 := by
  intro l1
  induction l1 with
  | nil => intro l2 dst; rfl
  | cons p rest ih =>
    intro l2 dst
    obtain ⟨k, v⟩ := p
    simp only [List.cons_append]
    rw [show copyNonCookie dst ((k, v) :: (rest ++ l2)) = copyNonCookie
      (if (strLower k == "set-cookie") = true then dst else hset dst k v) (rest ++ l2) from rfl]
    rw [show copyNonCookie dst ((k, v) :: rest) = copyNonCookie
      (if (strLower k == "set-cookie") = true then dst else hset dst k v) rest from rfl]
    exact ih l2 _

theorem appendCookies_append (hostname : String) :
    ∀ (l1 l2 : List String) (dst : HeaderMap),
      appendCookies hostname dst (l1 ++ l2)
        = appendCookies hostname (appendCookies hostname dst l1) l2 := by
  intro l1
  induction l1 with
  | nil => intro l2 dst; rfl
  | cons c rest ih =>
    intro l2 dst
    simp only [List.cons_append]
    rw [show appendCookies hostname dst (c :: (rest ++ l2)) = appendCookies hostname
      (match modifyCookie c hostname with
       | some m => happend dst "Set-Cookie" m
       | none => dst) (rest ++ l2) from rfl]
    rw [show appendCookies hostname dst (c :: rest) = appendCookies hostname
      (match modifyCookie c hostname with
       | some m => happend dst "Set-Cookie" m
       | none => dst) rest from rfl]
    exact ih l2 _

theorem hgetAll_copyNonCookie_setCookie :
    ∀ (l : List (String × String)) (dst : HeaderMap),
      hgetAll dst "Set-Cookie" = [] → hgetAll (copyNonCookie dst l) "Set-Cookie" = [] := by
  intro l
  induction l with
  | nil => intro dst h; exact h
  | cons p rest ih =>
    intro dst h
    obtain ⟨k, v⟩ := p
    unfold copyNonCookie
    by_cases hk : (strLower k == "set-cookie") = true
    · rw [if_pos hk]
      exact ih dst h
    · rw [if_neg hk]
      apply ih
      rw [hgetAll_hset_ne dst v
        (by rw [show strLower "Set-Cookie" = "set-cookie" from by decide]
            exact Bool.eq_false_iff.mpr hk)]
      exact h

theorem hgetAll_appendCookies (hostname : String) :
    ∀ (l : List String) (dst : HeaderMap),
      hgetAll (appendCookies hostname dst l) "Set-Cookie"
        = hgetAll dst "Set-Cookie" ++ l.filterMap (fun c => modifyCookie c hostname) := by
  intro l
  induction l with
  | nil => intro dst; simp [appendCookies]
  | cons c cs ih =>
    intro dst
    rw [show appendCookies hostname dst (c :: cs) = appendCookies hostname
      (match modifyCookie c hostname with
       | some m => happend dst "Set-Cookie" m
       | none => dst) cs from rfl]
    cases hmc : modifyCookie c hostname with
    | none =>
      rw [ih]
      simp only [List.filterMap_cons, hmc]
    | some m =>
      rw [ih]
      simp only [List.filterMap_cons, hmc]
      rw [hgetAll_happend_self, List.append_assoc]
      rfl

theorem hgetAll_setCorsHeaders_setCookie (hs : HeaderMap) (origin : String) :
    hgetAll (setCorsHeaders hs origin) "Set-Cookie" = hgetAll hs "Set-Cookie" := by
  unfold setCorsHeaders
  rw [hgetAll_hset_ne _ _ (by decide), hgetAll_hset_ne _ _ (by decide),
    hgetAll_hset_ne _ _ (by decide), hgetAll_hset_ne _ _ (by decide)]

/-! ## Lemmas: unrecognized attributes and prefix stripping -/

theorem isRecognized_rewriteSeg_of_true {hostname y : String} (h : isRecognized y = true) :
    isRecognized (rewriteSeg hostname y) = true := by
  unfold isRecognized at h
  simp only [Bool.or_eq_true] at h
  rcases h with (hd | hs) | hc
  · rw [rewriteSeg_of_domain hd]
    unfold isRecognized
    rw [isDomainPart_domain_append]
    rfl
  · rw [rewriteSeg_of_sameSite hs]
    decide
  · rw [rewriteSeg_of_secure hc]
    decide

theorem isRecognized_false_parts {y : String} (h : isRecognized y = false) :
    isDomainPart y = false ∧ isSameSitePart y = false ∧ isSecurePart y = false := by
  unfold isRecognized at h
  simp only [Bool.or_eq_false_iff] at h
  exact ⟨h.1.1, h.1.2, h.2⟩

theorem filter_unrec_map (hostname : String) :
    ∀ l : List String,
      (l.map (rewriteSeg hostname)).filter (fun x => !isRecognized x)
        = l.filter (fun x => !isRecognized x) := by
  intro l
  induction l with
  | nil => rfl
  | cons y ys ih =>
    simp only [List.map_cons, List.filter_cons]
    by_cases hr : isRecognized y = true
    · rw [isRecognized_rewriteSeg_of_true hr, hr]
      simp only [Bool.not_true]
      rw [if_neg Bool.false_ne_true, if_neg Bool.false_ne_true]
      exact ih
    · have hf := Bool.eq_false_iff.mpr hr
      obtain ⟨h1, h2, h3⟩ := isRecognized_false_parts hf
      rw [rewriteSeg_of_other h1 h2 h3, hf]
      simp only [Bool.not_false]
      rw [if_pos trivial, if_pos trivial, ih]

theorem replaceFirstList_isPre {pat rep : List Char} :
    ∀ {l : List Char}, isPre pat l = true →
      replaceFirstList pat rep l = rep ++ l.drop pat.length := by
  intro l h
  cases l with
  | nil =>
    cases pat with
    | nil => simp [replaceFirstList, isPre]
    | cons a as => simp [isPre] at h
  | cons c rest =>
    rw [show replaceFirstList pat rep (c :: rest)
        = if isPre pat (c :: rest) = true then rep ++ (c :: rest).drop pat.length
          else c :: replaceFirstList pat rep rest from rfl]
    rw [if_pos h]

theorem isPre_of_isPre_append {b : List Char} :
    ∀ {a l : List Char}, isPre (a ++ b) l = true → isPre a l = true := by
  intro a
  induction a with
  | nil => intro l _; rfl
  | cons c cs ih =>
    intro l h
    cases l with
    | nil => simp [isPre] at h
    | cons d ds =>
      simp only [List.cons_append, isPre, Bool.and_eq_true] at h ⊢
      exact ⟨h.1, ih h.2⟩

theorem replaceFirst_strip {pathname : String} (h : startsWithStr "/fly-api/" pathname = true) :
    replaceFirst "/fly-api" "" pathname = String.mk (pathname.data.drop 8) := by
  unfold startsWithStr at h
  rw [show ("/fly-api/" : String).data = ("/fly-api" : String).data ++ ['/'] from rfl] at h
  have hpre := isPre_of_isPre_append h
  unfold replaceFirst
  rw [replaceFirstList_isPre hpre,
    show ("" : String).data = ([] : List Char) from rfl, List.nil_append,
    show ("/fly-api" : String).data.length = 8 from by decide]

/-! ## Projection lemmas for the rebuild path -/

theorem rebuildResponse_headers (resp : UpstreamResponse) (hostname origin : String) :
    (rebuildResponse resp hostname origin).headers
      = setCorsHeaders (appendCookies hostname (copyNonCookie [] resp.headers)
          (hgetAll resp.headers "Set-Cookie")) origin := rfl

/-! ## Claim theorems -/

/-- Claim C1, counterexample: the exactly-one-Domain invariant fails when the
input carries two Domain attributes; modifyCookie rewrites each occurrence in
place, so the output carries two Domain attributes, not one. -/
theorem C1_counterexample :
    ¬ (∀ s, modifyCookie "a=b; Domain=x; Domain=y" "example.com" = some s →
        countDomainAttrs s = 1 ∧ countSameSiteAttrs s = 1 ∧ countSecureToks s = 1) := by
  intro h
  have h1 := (h "a=b; Domain=example.com; Domain=example.com; SameSite=None; Secure"
    (by decide)).1
  exact absurd h1 (by decide)

/-- Claim C1, amended: for every non-empty cookie and well-formed request
hostname, the rewritten cookie contains max 1 k Domain attributes where k is
the number of input attribute segments whose key matches domain= (plus any
bare Domain segments passed through unchanged), likewise for SameSite, and
max 1 k bare Secure tokens; every Domain attribute with a value in the
output equals Domain=hostname and every SameSite attribute with a value
equals SameSite=None.  In particular, when the input has at most one of each
recognized attribute, the output has exactly one of each. -/
theorem C1_amended (c hostname s : String) (hc : c ≠ "") (hok : hostnameOk hostname = true)
    (h : modifyCookie c hostname = some s) :
    countDomainAttrs s
        = max 1 ((attrSegs c).countP (fun x => isDomainPart x))
          + (attrSegs c).countP (fun x => strLower x == "domain") ∧
      countSameSiteAttrs s
        = max 1 ((attrSegs c).countP (fun x => isSameSitePart x))
          + (attrSegs c).countP (fun x => strLower x == "samesite") ∧
      countSecureToks s = max 1 ((attrSegs c).countP (fun x => isSecurePart x)) ∧
      (∀ x ∈ attrSegs s, isDomainPart x = true → x = "Domain=" ++ hostname) ∧
      (∀ x ∈ attrSegs s, isSameSitePart x = true → x = "SameSite=None") := by
  rw [modifyCookie_eq_some hostname hc, Option.some.injEq] at h
  subst h
  have hattr : attrSegs (joinSep "; " (outParts c hostname)) = (outParts c hostname).tail := by
    unfold attrSegs
    rw [cookieSegs_outParts hok]
  unfold countDomainAttrs countSameSiteAttrs countSecureToks
  rw [hattr]
  exact ⟨outParts_tail_countDomain c hostname, outParts_tail_countSameSite c hostname,
    outParts_tail_countSecure c hostname, fun x hx => outParts_tail_domain_val x hx,
    fun x hx => outParts_tail_sameSite_val x hx⟩

/-- Claim C1, witness for the amended theorem at a concrete cookie. -/
theorem C1_amended_witness :
    countDomainAttrs "a=b; Path=/; Domain=example.com; SameSite=None; Secure"
      = max 1 ((attrSegs "a=b; Path=/; Domain=x").countP (fun x => isDomainPart x))
        + (attrSegs "a=b; Path=/; Domain=x").countP (fun x => strLower x == "domain") :=
  (C1_amended "a=b; Path=/; Domain=x" "example.com"
    "a=b; Path=/; Domain=example.com; SameSite=None; Secure"
    (by decide) (by decide) (by decide)).1

/-- Claim C2: the upstream request of the manual-redirect variant is built
with redirect mode manual (no auto-following); a response with status in
[300,400) and a Location header is passed through with the same status,
status text and full header set and no body (so no cookie rewriting and no
CORS injection); any other response, including a 3xx without Location, goes
through the normal rebuild path. -/
theorem C2_redirect_classification :
    (∀ (req : InboundRequest) (pathname search : String),
        (buildModifiedRequest req pathname search).redirect = RedirectMode.manual) ∧
      (∀ (resp : UpstreamResponse) (hostname origin : String),
        (isRedirect resp →
          handleApiRequest resp hostname origin
            = { status := resp.status, statusText := resp.statusText,
                headers := resp.headers, body := none }) ∧
        (¬ isRedirect resp →
          handleApiRequest resp hostname origin = rebuildResponse resp hostname origin)) := by
  refine ⟨fun req p q => rfl, fun resp h o => ⟨fun hr => ?_, fun hr => ?_⟩⟩
  · unfold handleApiRequest
    rw [if_pos hr]
  · unfold handleApiRequest
    rw [if_neg hr]

/-- Claim C2, witness: a 302 with a Location header is passed through
verbatim with no body. -/
theorem C2_witness :
    handleApiRequest ⟨302, "Found", [("Location", "https://x/y")], []⟩ "h" "o"
      = { status := 302, statusText := "Found", headers := [("Location", "https://x/y")],
          body := none } :=
  ((C2_redirect_classification.2 ⟨302, "Found", [("Location", "https://x/y")], []⟩ "h" "o").1
    (by decide))

/-- Claim C3: modifyCookie equals the specification algorithm: split on the
semicolon and trim, keep the first segment, replace Domain attributes in
place by Domain=hostname, SameSite attributes in place by SameSite=None,
keep bare Secure, pass everything else through, append the missing ones of
the three in the fixed order Domain, SameSite, Secure, and join with a
semicolon and a space. -/
theorem C3_rewrite_algorithm :
    ∀ cookie hostname : String, modifyCookie cookie hostname = modifyCookieSpec cookie hostname := by
  intro c h
  by_cases hc : c = ""
  · subst hc
    rfl
  · rw [modifyCookie_eq_some h hc]
    unfold modifyCookieSpec
    rw [if_neg hc]

/-- Claim C3, witness at a concrete cookie. -/
theorem C3_witness :
    modifyCookie "a=b; Domain=x; SameSite=Lax; Secure; HttpOnly" "example.com"
      = modifyCookieSpec "a=b; Domain=x; SameSite=Lax; Secure; HttpOnly" "example.com" :=
  C3_rewrite_algorithm "a=b; Domain=x; SameSite=Lax; Secure; HttpOnly" "example.com"

/-- Claim C4, counterexample: for a matching request with an empty query
string the code produces origin ++ pathname with no trailing question mark,
while the claimed formula origin + transformedPath + "?" + query would end
in a question mark. -/
theorem C4_counterexample :
    buildBackendUrl1 "/fly-api/users" "" = "https://laclipasa-backend.fly.dev/fly-api/users" ∧
      "https://laclipasa-backend.fly.dev/fly-api/users"
        ≠ backendOrigin ++ "/fly-api/users" ++ "?" ++ "" := by
  constructor
  · rfl
  · decide

/-- Claim C4, amended: the upstream URL equals origin ++ transformedPath ++
search byte for byte, where search is "?" ++ query when the URL has a query
and the empty string otherwise; the transform keeps the path as-is in the
first variant and strips the matched /fly-api prefix in the manual-redirect
variant. -/
theorem C4_amended (pathname q : String) :
    buildBackendUrl1 pathname ("?" ++ q) = backendOrigin ++ pathname ++ "?" ++ q ∧
      buildBackendUrl1 pathname "" = backendOrigin ++ pathname ∧
      (startsWithStr "/fly-api/" pathname = true →
        buildBackendUrl2 pathname ("?" ++ q)
            = backendOrigin ++ String.mk (pathname.data.drop 8) ++ "?" ++ q ∧
          buildBackendUrl2 pathname "" = backendOrigin ++ String.mk (pathname.data.drop 8)) := by
  refine ⟨?_, ?_, fun hst => ⟨?_, ?_⟩⟩
  · unfold buildBackendUrl1
    simp only [String.append_assoc]
  · unfold buildBackendUrl1
    rw [String.append_empty]
  · unfold buildBackendUrl2
    rw [replaceFirst_strip hst]
    simp only [String.append_assoc]
  · unfold buildBackendUrl2
    rw [replaceFirst_strip hst, String.append_empty]

/-- Claim C4, witness for the amended theorem: prefix stripping on a
concrete matching path with a query. -/
theorem C4_amended_witness :
    buildBackendUrl2 "/fly-api/u" ("?" ++ "a=1")
      = backendOrigin ++ String.mk (("/fly-api/u" : String).data.drop 8) ++ "?" ++ "a=1" :=
  ((C4_amended "/fly-api/u" "a=1").2.2 (by decide)).1

/-- Claim C5: for every non-redirect upstream response, the outbound
Set-Cookie headers are exactly the successful rewrites of the upstream
Set-Cookie values, one distinct appended header per value, in the original
order, never merged. -/
theorem C5_setCookie_multiplicity (resp : UpstreamResponse) (hostname origin : String)
    (hnr : ¬ isRedirect resp) :
    hgetAll (handleApiRequest resp hostname origin).headers "Set-Cookie"
      = (hgetAll resp.headers "Set-Cookie").filterMap (fun c => modifyCookie c hostname) := by
  unfold handleApiRequest
  rw [if_neg hnr, rebuildResponse_headers, hgetAll_setCorsHeaders_setCookie,
    hgetAll_appendCookies, hgetAll_copyNonCookie_setCookie resp.headers [] rfl,
    List.nil_append]

/-- Claim C5, witness: two upstream cookies yield two outbound cookies in
order. -/
theorem C5_witness :
    hgetAll (handleApiRequest
        ⟨200, "OK", [("Set-Cookie", "a=b"), ("Set-Cookie", "c=d")], []⟩
        "example.com" "http://example.com").headers "Set-Cookie"
      = (hgetAll ([("Set-Cookie", "a=b"), ("Set-Cookie", "c=d")] : HeaderMap)
          "Set-Cookie").filterMap (fun c => modifyCookie c "example.com") :=
  C5_setCookie_multiplicity ⟨200, "OK", [("Set-Cookie", "a=b"), ("Set-Cookie", "c=d")], []⟩
    "example.com" "http://example.com" (by decide)

/-- Claim C6: the rewrite keeps the main (first) segment and passes every
attribute other than Domain, SameSite and Secure through unchanged, in the
original relative order. -/
theorem C6_frame (c hostname s : String) (hc : c ≠ "") (hok : hostnameOk hostname = true)
    (h : modifyCookie c hostname = some s) :
    (cookieSegs s).headD "" = (cookieSegs c).headD "" ∧
      (attrSegs s).filter (fun x => !isRecognized x)
        = (attrSegs c).filter (fun x => !isRecognized x) := by
  rw [modifyCookie_eq_some hostname hc, Option.some.injEq] at h
  subst h
  have hattr : attrSegs (joinSep "; " (outParts c hostname)) = (outParts c hostname).tail := by
    unfold attrSegs
    rw [cookieSegs_outParts hok]
  constructor
  · rw [cookieSegs_outParts hok, outParts_expand]
    rfl
  · rw [hattr]
    unfold outParts
    simp only [List.tail_cons]
    rw [List.filter_append, List.filter_append, List.filter_append]
    have hD : (if (attrSegs c).any isDomainPart then ([] : List String)
        else ["Domain=" ++ hostname]).filter (fun x => !isRecognized x) = [] := by
      by_cases hd : (attrSegs c).any isDomainPart = true
      · rw [if_pos hd]
        rfl
      · rw [if_neg hd]
        simp only [List.filter_cons]
        rw [if_neg (by
          rw [show isRecognized ("Domain=" ++ hostname) = true from by
            unfold isRecognized
            rw [isDomainPart_domain_append]
            rfl]
          exact Bool.false_ne_true)]
        rfl
    have hS : (if (attrSegs c).any isSameSitePart then ([] : List String)
        else ["SameSite=None"]).filter (fun x => !isRecognized x) = [] := by
      by_cases hd : (attrSegs c).any isSameSitePart = true
      · rw [if_pos hd]
        rfl
      · rw [if_neg hd]
        decide
    have hC : (if (attrSegs c).any isSecurePart then ([] : List String)
        else ["Secure"]).filter (fun x => !isRecognized x) = [] := by
      by_cases hd : (attrSegs c).any isSecurePart = true
      · rw [if_pos hd]
        rfl
      · rw [if_neg hd]
        decide
    rw [hD, hS, hC, filter_unrec_map, List.append_nil, List.append_nil, List.append_nil]

/-- Claim C6, witness at a concrete cookie with unrelated attributes. -/
theorem C6_witness :
    (attrSegs "a=b; Path=/; Domain=example.com; HttpOnly; SameSite=None; Secure").filter
        (fun x => !isRecognized x)
      = (attrSegs "a=b; Path=/; Domain=x; HttpOnly").filter (fun x => !isRecognized x) :=
  (C6_frame "a=b; Path=/; Domain=x; HttpOnly" "example.com"
    "a=b; Path=/; Domain=example.com; HttpOnly; SameSite=None; Secure"
    (by decide) (by decide) (by decide)).2

/-- Claim C7: every non-redirect outbound response carries exactly the four
CORS headers with the fixed values, set last so any prior value for the same
key is overwritten; Access-Control-Allow-Origin is the inbound request's
origin (scheme+host). -/
theorem C7_cors (resp : UpstreamResponse) (hostname origin : String)
    (hnr : ¬ isRedirect resp) :
    hgetAll (handleApiRequest resp hostname origin).headers "Access-Control-Allow-Origin"
        = [origin] ∧
      hgetAll (handleApiRequest resp hostname origin).headers "Access-Control-Allow-Credentials"
        = ["true"] ∧
      hgetAll (handleApiRequest resp hostname origin).headers "Access-Control-Allow-Methods"
        = ["GET, POST, PUT, DELETE, OPTIONS"] ∧
      hgetAll (handleApiRequest resp hostname origin).headers "Access-Control-Allow-Headers"
        = ["Content-Type, Authorization"] := by
  unfold handleApiRequest
  rw [if_neg hnr, rebuildResponse_headers]
  unfold setCorsHeaders
  refine ⟨?_, ?_, ?_, ?_⟩
  · rw [hgetAll_hset_ne _ _ (by decide), hgetAll_hset_ne _ _ (by decide),
      hgetAll_hset_ne _ _ (by decide), hgetAll_hset_self]
  · rw [hgetAll_hset_ne _ _ (by decide), hgetAll_hset_ne _ _ (by decide), hgetAll_hset_self]
  · rw [hgetAll_hset_ne _ _ (by decide), hgetAll_hset_self]
  · rw [hgetAll_hset_self]

/-- Claim C7, witness: CORS headers on a concrete proxied response,
overwriting an upstream value for the same key. -/
theorem C7_witness :
    hgetAll (handleApiRequest ⟨200, "OK", [("Access-Control-Allow-Origin", "evil")], []⟩
        "example.com" "http://example.com").headers "Access-Control-Allow-Origin"
      = ["http://example.com"] :=
  (C7_cors ⟨200, "OK", [("Access-Control-Allow-Origin", "evil")], []⟩
    "example.com" "http://example.com" (by decide)).1

/-- Claim C8: modifyCookie returns nothing exactly on the empty cookie
string, and a dropped (empty) Set-Cookie value leaves the rebuilt response
unchanged: every other Set-Cookie value and every other header is still
processed and emitted. -/
theorem C8_empty_drop :
    (∀ c hostname : String, modifyCookie c hostname = none ↔ c = "") ∧
      (∀ (st : Nat) (sx : String) (hs1 hs2 : HeaderMap) (body : List Nat)
        (hostname origin : String),
        rebuildResponse ⟨st, sx, hs1 ++ ("Set-Cookie", "") :: hs2, body⟩ hostname origin
          = rebuildResponse ⟨st, sx, hs1 ++ hs2, body⟩ hostname origin) := by
  constructor
  · intro c hostname
    constructor
    · intro hn
      by_contra hne
      rw [modifyCookie_eq_some hostname hne] at hn
      exact Option.noConfusion hn
    · intro he
      subst he
      rfl
  · intro st sx hs1 hs2 body hostname origin
    have hcopy : copyNonCookie ([] : HeaderMap) (hs1 ++ ("Set-Cookie", "") :: hs2)
        = copyNonCookie ([] : HeaderMap) (hs1 ++ hs2) := by
      rw [copyNonCookie_append, copyNonCookie_append]
      rw [show copyNonCookie (copyNonCookie [] hs1) (("Set-Cookie", "") :: hs2)
          = copyNonCookie (if (strLower "Set-Cookie" == "set-cookie") = true
              then copyNonCookie [] hs1 else hset (copyNonCookie [] hs1) "Set-Cookie" "") hs2
            from rfl]
      rw [if_pos (by decide)]
    have happ : ∀ dst : HeaderMap,
        appendCookies hostname dst (hgetAll hs1 "Set-Cookie" ++ "" :: hgetAll hs2 "Set-Cookie")
          = appendCookies hostname dst (hgetAll hs1 "Set-Cookie" ++ hgetAll hs2 "Set-Cookie") := by
      intro dst
      rw [appendCookies_append, appendCookies_append]
      rfl
    have hheaders : setCorsHeaders (appendCookies hostname
          (copyNonCookie [] (hs1 ++ ("Set-Cookie", "") :: hs2))
          (hgetAll (hs1 ++ ("Set-Cookie", "") :: hs2) "Set-Cookie")) origin
        = setCorsHeaders (appendCookies hostname (copyNonCookie [] (hs1 ++ hs2))
          (hgetAll (hs1 ++ hs2) "Set-Cookie")) origin := by
      rw [hcopy, hgetAll_insert_setCookie, hgetAll_append]
      exact congrArg (fun hm => setCorsHeaders hm origin)
        (happ (copyNonCookie [] (hs1 ++ hs2)))
    show OutboundResponse.mk st sx (setCorsHeaders (appendCookies hostname
        (copyNonCookie [] (hs1 ++ ("Set-Cookie", "") :: hs2))
        (hgetAll (hs1 ++ ("Set-Cookie", "") :: hs2) "Set-Cookie")) origin) (some body)
      = OutboundResponse.mk st sx (setCorsHeaders (appendCookies hostname
        (copyNonCookie [] (hs1 ++ hs2)) (hgetAll (hs1 ++ hs2) "Set-Cookie")) origin) (some body)
    rw [hheaders]

/-- Claim C8, witness: the equivalence at a concrete cookie, and the frame
equality at concrete headers. -/
theorem C8_witness :
    (modifyCookie "" "example.com" = none ↔ ("" : String) = "") :=
  C8_empty_drop.1 "" "example.com"

/-- Claim C9: a request whose path does not start with the configured
prefix gets the fixed 200 fallback response and no upstream call is made
(the router result is the fallback constructor, not the proxied one), in
both source variants. -/
theorem C9_fallback :
    (∀ pathname search : String, startsWithStr "/fly-api/" pathname = false →
        fetchRouter pathname search = RouterResult.fallback 200 fallbackBody1) ∧
      (∀ pathname search : String, startsWithStr "/api/" pathname = false →
        fetchRouterPart000 pathname search = RouterResult.fallback 200 fallbackBody000) := by
  refine ⟨fun p q h => ?_, fun p q h => ?_⟩
  · unfold fetchRouter
    rw [if_neg (bool_ne_true h)]
  · unfold fetchRouterPart000
    rw [if_neg (bool_ne_true h)]

/-- Claim C9, witness at a concrete non-matching path. -/
theorem C9_witness :
    fetchRouter "/other" "" = RouterResult.fallback 200 fallbackBody1 :=
  C9_fallback.1 "/other" "" (by decide)

/-- Claim C10: for a well-formed request hostname (no semicolon, no
whitespace, which holds for the hostname of every request URL), the cookie
rewrite is idempotent: rewriting an already-rewritten cookie returns it
unchanged. -/
theorem C10_idempotent (c hostname s : String) (hok : hostnameOk hostname = true)
    (h : modifyCookie c hostname = some s) : modifyCookie s hostname = some s :=
  modifyCookie_idem hok h

/-- Claim C10, witness at a concrete cookie. -/
theorem C10_witness :
    modifyCookie "a=b; Domain=example.com; SameSite=None; Secure" "example.com"
      = some "a=b; Domain=example.com; SameSite=None; Secure" :=
  C10_idempotent "a=b" "example.com" "a=b; Domain=example.com; SameSite=None; Secure"
    (by decide) (by decide)

end CloudflareProxy
